import Mathlib

/-!
Verification development for the `rustbook-httpserver` repository.

Shallow embedding of `src/main.rs`, `src/mime_type.rs` and
`src/thread_pool.rs`.  Rust `HashMap`s are modelled as key-unique
association lists (only lookup, insert, entry-push and remove are used by
the code, and iteration order only matters where noted); Rust function
pointers (`HttpHandler`, `MiddlewareFunc`) are modelled as noted at the
corresponding definitions; byte streams are modelled as the list of lines
the code reads from them, and the filesystem as a partial map from path to
file content.
-/

set_option autoImplicit false

namespace RustHttp

/-- Embeds `enum HttpMethod` (main.rs lines 130-139). -/
inductive HttpMethod where
  | GET
  | POST
  | PUT
  | DELETE
  | HEAD
  | OPTIONS
  | TRACE
deriving DecidableEq

/-- Embeds `HttpMethod::name_of` (main.rs lines 141-152). -/
def HttpMethod.name_of (name : String) : Option HttpMethod :=
  match name with
  | "GET" => some HttpMethod.GET
  | "POST" => some HttpMethod.POST
  | "PUT" => some HttpMethod.PUT
  | "DELETE" => some HttpMethod.DELETE
  | "HEAD" => some HttpMethod.HEAD
  | "OPTIONS" => some HttpMethod.OPTIONS
  | "TRACE" => some HttpMethod.TRACE
  | _ => none

/-- Association-list model of `HashMap` lookup (`map.get(&key)`).
Keys are kept unique by `insertA` and `pushA` below. -/
def lookupA {β : Type} : List (String × β) → String → Option β
  | [], _ => none
  | (k, v) :: rest, key => if k = key then some v else lookupA rest key

/-- Association-list model of `HashMap::insert`: replaces the value at an
existing key, otherwise appends the new binding. -/
def insertA {β : Type} : List (String × β) → String → β → List (String × β)
  | [], k, v => [(k, v)]
  | (k2, v2) :: rest, k, v =>
    if k2 = k then (k, v) :: rest else (k2, v2) :: insertA rest k v

/-- Association-list model of `map.entry(k).or_insert_with(Vec::new).push(v)`
(main.rs lines 364-366): appends `v` to the list at key `k`, creating the
entry when absent. -/
def pushA : List (String × List String) → String → String → List (String × List String)
  | [], k, v => [(k, [v])]
  | (k2, l) :: rest, k, v =>
    if k2 = k then (k2, l ++ [v]) :: rest else (k2, l) :: pushA rest k v

/-- Association-list model of `HashMap::remove` (used for
`headers.remove("Content-Type")`). -/
def removeA {β : Type} (m : List (String × β)) (k : String) : List (String × β) :=
  m.filter (fun kv => kv.1 ≠ k)

/-- Splits a character list at the first occurrence of the (non-empty)
separator `sep`: `none` when `sep` does not occur, otherwise the parts
before and after that first occurrence. -/
def splitOnceL (sep : List Char) : List Char → Option (List Char × List Char)
  | [] => if sep.isPrefixOf ([] : List Char) then some ([], []) else none
  | c :: rest =>
    if sep.isPrefixOf (c :: rest) then some ([], (c :: rest).drop sep.length)
    else (splitOnceL sep rest).map (fun pr => (c :: pr.1, pr.2))

/-- Embeds Rust `str::split_once(sep)` / `splitn(2, sep)` (split at the
first occurrence of the separator; `none` when the separator does not
occur). -/
def split_once (sep s : String) : Option (String × String) :=
  (splitOnceL sep.toList s.toList).map (fun pr => (String.mk pr.1, String.mk pr.2))

/-- Embeds Rust `str::split(p)` (as used with a whitespace predicate):
splits at every character satisfying `p`, keeping empty chunks. -/
def splitCharPred (p : Char → Bool) : List Char → List (List Char)
  | [] => [[]]
  | ch :: rest =>
    match splitCharPred p rest with
    | [] => [[]]
    | h :: t => if p ch then [] :: h :: t else (ch :: h) :: t

/-- Embeds Rust `Vec::join(sep)` for the collected body lines. -/
def joinSep (sep : String) : List String → String
  | [] => ""
  | [x] => x
  | x :: rest => x ++ sep ++ joinSep sep rest

/-- Embeds Rust `str::to_uppercase` for the ASCII method tokens. -/
def toUpperModel (s : String) : String :=
  String.mk (s.toList.map Char.toUpper)

/-- Embeds Rust `String::replace(pat, rep)` (replace every non-overlapping
occurrence of `pat`, scanning left to right), via a fuel argument equal to
the length of the scanned list; a non-empty pattern always consumes at
least one character, so the fuel never runs out. -/
def replaceAllAux (pat rep : List Char) : Nat → List Char → List Char
  | 0, s => s
  | Nat.succ _, [] => []
  | Nat.succ n, c :: rest =>
    if pat ≠ [] ∧ pat.isPrefixOf (c :: rest) then
      rep ++ replaceAllAux pat rep n ((c :: rest).drop pat.length)
    else c :: replaceAllAux pat rep n rest

/-- Embeds Rust `String::replace(pat, rep)` on strings. -/
def replaceAll (s pat rep : String) : String :=
  String.mk (replaceAllAux pat.toList rep.toList s.toList.length s.toList)

/-- Embeds the static `CONTENT_TYPE_MAP` of mime_type.rs (lines 4-49). -/
def CONTENT_TYPE_MAP : List (String × String) :=
  [("html", "text/html"), ("htm", "text/html"),
   ("css", "text/css"),
   ("js", "application/javascript"), ("mjs", "application/javascript"),
   ("jpg", "image/jpeg"), ("jpeg", "image/jpeg"), ("png", "image/png"),
   ("gif", "image/gif"), ("bmp", "image/bmp"), ("svg", "image/svg+xml"),
   ("webp", "image/webp"),
   ("ttf", "font/ttf"), ("otf", "font/otf"), ("woff", "font/woff"),
   ("woff2", "font/woff2"),
   ("mp4", "video/mp4"), ("webm", "video/webm"), ("ogg", "video/ogg"),
   ("mp3", "audio/mpeg"), ("wav", "audio/wav"),
   ("json", "application/json"), ("xml", "application/xml"),
   ("pdf", "application/pdf"), ("zip", "application/zip"),
   ("gz", "application/gzip"), ("txt", "text/plain")]

/-- Embeds Rust `str::split('.')` over the character list of the string:
splits at every occurrence of `c`, keeping empty chunks, never returning an
empty list. -/
def splitChar (c : Char) : List Char → List (List Char)
  | [] => [[]]
  | ch :: rest =>
    match splitChar c rest with
    | [] => [[]]
    | h :: t => if ch = c then [] :: h :: t else (ch :: h) :: t

/-- Embeds `get_content_type` (mime_type.rs lines 51-58):
`file_path.split('.').last()` looked up in `CONTENT_TYPE_MAP`, defaulting to
`application/octet-stream`.  Note the code performs no lower-casing. -/
def get_content_type (file_path : String) : String :=
  match (splitChar '.' file_path.toList).getLast? with
  | some extension =>
    match lookupA CONTENT_TYPE_MAP (String.mk extension) with
    | some content_type => content_type
    | none => "application/octet-stream"
  | none => "application/octet-stream"

/-- Embeds the parameter-map construction of `HttpRequest::query_all`
(main.rs lines 356-369): split the raw query string on `&`; a piece without
`=` is `insert`ed with an empty value vector, a piece with `=` is split at
the first `=` and the value pushed onto the entry for its key. -/
def computeParams (query_string : String) : List (String × List String) :=
  ((splitChar '&' query_string.toList).map String.mk).foldl
    (fun m pv =>
      match split_once "=" pv with
      | none => insertA m pv []
      | some kv => pushA m kv.1 kv.2)
    []

/-- Embeds the value returned by `HttpRequest::query_all` (main.rs lines
351-377) as a function of the request's raw query string: `None` when there
is no query string, otherwise the lookup in the (lazily computed) parameter
map.  The lazy cache only memoizes this value, so it is dropped from the
model; the `is_empty` special case at lines 370-374 is unreachable because
splitting always yields at least one piece. -/
def query_all (query_string : Option String) (key : String) : Option (List String) :=
  match query_string with
  | none => none
  | some qs => lookupA (computeParams qs) key

/-- Embeds `HttpRequest::query` (main.rs lines 378-381):
`self.query_all(key)?.get(0).cloned()`. -/
def query (query_string : Option String) (key : String) : Option String :=
  match query_all query_string key with
  | none => none
  | some l => l.get? 0

/-- Embeds `struct HttpRequest` (main.rs lines 335-348).  `params` is the
lazy query-parameter cache, `None` as constructed by the parser. -/
structure HttpRequest where
  version : String
  remote_addr : String
  method : HttpMethod
  path : String
  hash : Option String
  query_string : Option String
  params : Option (List (String × List String))
  headers : List (String × String)
  body : Option String
deriving DecidableEq

/-- Embeds Rust `str::find(pat)` for the single-character patterns `"#"` and
`"?"` used at main.rs lines 503 and 507/518: index of the first occurrence
of the character, `none` when absent. -/
def findChar (c : Char) : List Char → Option Nat
  | [] => none
  | x :: xs => if x = c then some 0 else (findChar c xs).map (fun n => n + 1)

/-- Embeds the request-target decomposition of `parse_http_request`
(main.rs lines 500-526), over the character list of the target.  Returns
`(path, hash, query_string)`.  The code initializes `path` to the whole
target and overwrites it inside the `#`-found and `?`-found branches; the
result is as written here. -/
def parseTarget (part_url : List Char) :
    List Char × Option (List Char) × Option (List Char) :=
  match findChar '#' part_url with
  | some hash_i =>
    let h := part_url.drop (hash_i + 1)
    let path := part_url.take hash_i
    match findChar '?' h with
    | none => (path, some h, none)
    | some q_i => (path, some (h.take q_i), some (h.drop (q_i + 1)))
  | none =>
    match findChar '?' part_url with
    | none => (part_url, none, none)
    | some q_i => (part_url.take q_i, none, some (part_url.drop (q_i + 1)))

/-- Embeds the header-scanning `while` loop of `parse_http_request`
(main.rs lines 479-487), walking the suffix `lines[i..]` of the collected
lines.  A line is split once at `": "`; lines without that separator are
skipped.  Returns the header map and the final value of `i`. -/
def headerScan : List String → List (String × String) → Nat →
    List (String × String) × Nat
  | [], headers, i => (headers, i)
  | l :: rest, headers, i =>
    if l = "" then (headers, i)
    else
      match split_once ": " l with
      | some kv => headerScan rest (insertA headers kv.1 kv.2) (i + 1)
      | none => headerScan rest headers (i + 1)

/-- Outcome of `parse_http_request`: `failure` models `return Err(())`,
`panicked` models the `unwrap()` panic at main.rs line 530 when
`HttpMethod::name_of` returns `None`. -/
inductive ParseOutcome where
  | failure
  | panicked
  | ok (r : HttpRequest)
deriving DecidableEq

/-- Embeds `parse_http_request` (main.rs lines 459-538).  The connection is
modelled by the list of lines `BufReader::lines` would yield from the
stream (`streamLines`) together with the result of `peer_addr()` rendered
as a string (`peer_addr`, `none` modelling an `Err`).  The code collects
lines with `take_while(|line| !line.is_empty())`, so collection stops at
the first empty line.  Rust `split_whitespace` is modelled as splitting on
whitespace characters and dropping empty tokens. -/
def parse_http_request (streamLines : List String) (peer_addr : Option String) :
    ParseOutcome :=
  let lines := streamLines.takeWhile (fun l => l ≠ "")
  match h : lines with
  | [] => ParseOutcome.failure
  | first :: _ =>
    let request_line :=
      ((splitCharPred Char.isWhitespace first.toList).filter
        (fun t => t ≠ [])).map String.mk
    if h3 : request_line.length = 3 then
      let method := request_line.get ⟨0, by omega⟩
      let part_url := request_line.get ⟨1, by omega⟩
      let version := request_line.get ⟨2, by omega⟩
      let scan := headerScan (lines.drop 1) [] 1
      let headers := scan.1
      let i := scan.2
      let body :=
        if i + 1 < lines.length then
          some (joinSep "\r\n" (lines.drop (i + 1)))
        else none
      match peer_addr with
      | none => ParseOutcome.failure
      | some addr =>
        let pq := parseTarget part_url.toList
        match HttpMethod.name_of (toUpperModel method) with
        | none => ParseOutcome.panicked
        | some m =>
          ParseOutcome.ok
            { version := version
              remote_addr := addr
              method := m
              path := String.mk pq.1
              hash := pq.2.1.map String.mk
              query_string := pq.2.2.map String.mk
              params := none
              headers := headers
              body := body }
    else ParseOutcome.failure

/-- Embeds `struct RequestMapping` (main.rs lines 47-52).  The `handler`
function pointer is modelled as an opaque identifier. -/
structure RequestMapping where
  method : Option HttpMethod
  path : String
  handler : Nat
deriving DecidableEq

/-- Embeds `HttpServer::is_match` (main.rs lines 212-223).  Note that the
prefix compared against is `mapping.path.replace("/**", "")`, which removes
every occurrence of `"/**"`, not only a trailing one.  `ends_with` and
`starts_with` are modelled on the character lists. -/
def is_match (request : HttpRequest) (mapping : RequestMapping) : Bool :=
  if mapping.method.any (fun m => m ≠ request.method) then false
  else if mapping.path = request.path then true
  else if ("/**".toList.isSuffixOf mapping.path.toList) &&
      ((replaceAll mapping.path "/**" "").toList.isPrefixOf request.path.toList)
      then true
  else false

/-- Embeds the handler search of `HttpServer::dispatch_request`
(main.rs lines 224-228): the first registered mapping, in registration
order, accepted by `is_match`. -/
def dispatch_find (handlers : List RequestMapping) (request : HttpRequest) :
    Option RequestMapping :=
  handlers.find? (fun mapping => is_match request mapping)

/-- Embeds `struct HttpResponse` (main.rs lines 383-390). -/
structure HttpResponse where
  status_code : Nat
  headers : Option (List (String × String))
  body : Option String
  view : Option String
  file : Option String
deriving DecidableEq

/-- Embeds the reason-phrase table of `write_response_line_header`
(main.rs lines 305-314). -/
def statusMessage (code : Nat) : String :=
  match code with
  | 200 => "OK"
  | 400 => "Bad Request"
  | 401 => "Unauthorized"
  | 403 => "Forbidden"
  | 404 => "Not Found"
  | 500 => "Internal Server Error"
  | _ => "Unknown Error"

/-- The header lines written by `write_response_line_header`
(main.rs lines 318-323), one chunk per header; `None` headers write
nothing.  `HashMap` iteration order is modelled as the association-list
order. -/
def headerLines (headers : Option (List (String × String))) : List String :=
  match headers with
  | none => []
  | some hs => hs.map (fun kv => kv.1 ++ ": " ++ kv.2 ++ "\r\n")

/-- Embeds `HttpServer::write_response_line_header` (main.rs lines
304-325) as the list of chunks written to the stream: status line, header
lines, blank line. -/
def write_response_line_header (r : HttpResponse) : List String :=
  ("HTTP/1.1 " ++ toString r.status_code ++ " " ++ statusMessage r.status_code
      ++ "\r\n")
    :: headerLines r.headers ++ ["\r\n"]

/-- Embeds `Path::new(root).join(view)` for string paths: an absolute
second component replaces the first, otherwise the components are joined
with a separator. -/
def joinPath (root v : String) : String :=
  if v.startsWith "/" then v else root ++ "/" ++ v

/-- Embeds the view-path resolution of `HttpServer::handler_response`
(main.rs lines 260-265). -/
def resolveView (view_root : Option String) (view : String) : String :=
  match view_root with
  | some root => joinPath root view
  | none => view

/-- Embeds `HttpServer::handler_response` (main.rs lines 255-302) as the
list of chunks written to the stream.  The filesystem is modelled by
`fs : String → Option String`, giving the content of a path that opens
successfully and `none` where `File::open` fails.  `io::copy` appends the
file content after the status line and headers. -/
def handler_response (fs : String → Option String) (view_root : Option String)
    (r : HttpResponse) : List String :=
  match r.body with
  | some body => write_response_line_header r ++ [body]
  | none =>
    match r.view with
    | some view =>
      let view_path := resolveView view_root view
      match fs view_path with
      | some content => write_response_line_header r ++ [content]
      | none =>
        let hs2 := r.headers.map (fun hs => removeA hs "Content-Type")
        write_response_line_header { r with status_code := 404, headers := hs2 }
    | none =>
      match r.file with
      | some file_path =>
        match fs file_path with
        | some content =>
          let hs2 := r.headers.map
            (fun hs => insertA hs "Content-Type" (get_content_type file_path))
          write_response_line_header { r with headers := hs2 } ++ [content]
        | none =>
          let hs2 := r.headers.map (fun hs => removeA hs "Content-Type")
          write_response_line_header { r with status_code := 404, headers := hs2 }
      | none => write_response_line_header r

/-- Embeds `struct Worker` (thread_pool.rs lines 53-57); the spawned thread
handle carries no data relevant to pool construction. -/
structure Worker where
  id : Nat
deriving DecidableEq

/-- Embeds `Worker::new` (thread_pool.rs lines 59-75) as far as pool
construction is concerned: a worker with the given id. -/
def Worker.new (id : Nat) : Worker := { id := id }

/-- Embeds `struct ThreadPool` (thread_pool.rs lines 7-11); the submission
channel is not needed for the construction contract. -/
structure ThreadPool where
  workers : List Worker
deriving DecidableEq

/-- Embeds `ThreadPool::new` (thread_pool.rs lines 14-26): error when
`size < 1`, otherwise a pool with one worker per index in `0..size`. -/
def ThreadPool.new (size : Nat) : Except String ThreadPool :=
  if size < 1 then Except.error "size must be greater than 0"
  else Except.ok { workers := (List.range size).map Worker.new }

/-- Embeds `struct Context` (main.rs lines 54-57). -/
structure Context where
  request : HttpRequest
  response : Option HttpResponse
deriving DecidableEq

/-- One step a middleware body can take.  The source passes function
pointers of type `MiddlewareFunc` that may set the response, call
`chain.abort()` or call `chain.next(ctx)` in any sequence; a middleware
body is modelled as the list of these operations it performs. -/
inductive MwAct where
  | setResponse (r : Option HttpResponse)
  | abortChain
  | callNext
deriving DecidableEq

/-- Embeds `struct MiddlewareChain` (main.rs lines 94-99).  Of each
registered `Middleware` only the handler body is used by chain execution,
so `middlewares` holds the modelled bodies.  `index` and `abort_index`
are `i8` in the source; they are modelled as `Int` (no scenario herein
approaches the `i8` range). -/
structure MiddlewareChain where
  handler : Context → Context
  middlewares : List (List MwAct)
  abort_index : Int
  index : Int

/-- Embeds `MiddlewareChain::new` (main.rs lines 102-109). -/
def MiddlewareChain.new (handler : Context → Context)
    (middlewares : List (List MwAct)) : MiddlewareChain :=
  { handler := handler, middlewares := middlewares, abort_index := -1, index := 0 }

/-- Embeds `MiddlewareChain::is_abort` (main.rs lines 110-112). -/
def MiddlewareChain.is_abort (c : MiddlewareChain) : Bool :=
  c.abort_index ≠ -1

/-- Embeds `MiddlewareChain::abort` (main.rs lines 113-115). -/
def MiddlewareChain.abort (c : MiddlewareChain) : MiddlewareChain :=
  { c with abort_index := c.index }

/-- Runs a middleware body, threading the chain and the context; `next`
is the continuation implementing `MiddlewareChain::next`, invoked by the
`callNext` action. -/
def runActs (next : MiddlewareChain → Context → MiddlewareChain × Context) :
    List MwAct → MiddlewareChain → Context → MiddlewareChain × Context
  | [], c, ctx => (c, ctx)
  | MwAct.setResponse r :: rest, c, ctx =>
    runActs next rest c { ctx with response := r }
  | MwAct.abortChain :: rest, c, ctx => runActs next rest c.abort ctx
  | MwAct.callNext :: rest, c, ctx =>
    let s := next c ctx
    runActs next rest s.1 s.2

/-- Embeds `MiddlewareChain::next` (main.rs lines 116-127): when
`index < middlewares.len() && !is_abort()` the middleware at `index` is
invoked with `index` advanced and `next` returns after it; otherwise the
terminal handler is invoked.  `fuel` bounds the nesting depth of `next`
calls; every reachable configuration terminates long before the fuel used
in the theorems below runs out. -/
def chainNext : Nat → MiddlewareChain → Context → MiddlewareChain × Context
  | 0, c, ctx => (c, ctx)
  | Nat.succ fuel, c, ctx =>
    if c.index < (c.middlewares.length : Int) ∧ c.is_abort = false then
      match c.middlewares.get? c.index.toNat with
      | some acts =>
        runActs (fun c2 ctx2 => chainNext fuel c2 ctx2) acts
          { c with index := c.index + 1 } ctx
      | none => (c, c.handler ctx)
    else (c, c.handler ctx)

/-- Embeds the chain execution of `HttpServer::dispatch_request`
(main.rs lines 244-250): build a fresh chain over the matched middlewares,
call `next` once on a context with no response, and return the context's
response. -/
def run_chain (fuel : Nat) (handler : Context → Context)
    (middlewares : List (List MwAct)) (request : HttpRequest) :
    Option HttpResponse :=
  let chain := MiddlewareChain.new handler middlewares
  let ctx : Context := { request := request, response := none }
  (chainNext fuel chain ctx).2.response

/-- A request value used to instantiate concrete scenarios. -/
def mkRequest (m : HttpMethod) (p : String) : HttpRequest :=
  { version := "HTTP/1.1"
    remote_addr := "127.0.0.1:1"
    method := m
    path := p
    hash := none
    query_string := none
    params := none
    headers := []
    body := none }

end RustHttp

namespace RustHttp

/-! ## Supporting lemmas -/

theorem lookupA_insertA {β : Type} (m : List (String × β)) (k : String) (v : β)
    (key : String) :
    lookupA (insertA m k v) key = if k = key then some v else lookupA m key := by
  induction m with
  | nil => simp [insertA, lookupA]
  | cons hd tl ih =>
    obtain ⟨k2, v2⟩ := hd
    by_cases h1 : k2 = k
    · subst h1
      by_cases h2 : k2 = key <;> simp [insertA, lookupA, h2]
    · by_cases h2 : k2 = key
      · subst h2
        have hk : ¬ k = k2 := fun h => h1 h.symm
        simp [insertA, h1, lookupA, hk]
      · simp [insertA, h1, lookupA, h2, ih]

theorem lookupA_pushA (m : List (String × List String)) (k v key : String) :
    lookupA (pushA m k v) key =
      if k = key then some ((lookupA m k).getD [] ++ [v]) else lookupA m key := by
  induction m with
  | nil => simp [pushA, lookupA]
  | cons hd tl ih =>
    obtain ⟨k2, l⟩ := hd
    by_cases h1 : k2 = k
    · subst h1
      by_cases h2 : k2 = key <;> simp [pushA, lookupA, h2]
    · by_cases h2 : k2 = key
      · subst h2
        have hk : ¬ k = k2 := fun h => h1 h.symm
        simp [pushA, h1, lookupA, hk]
      · simp [pushA, h1, lookupA, h2, ih]

/-- The per-key effect of one query-string piece, written from the claim:
a piece without `=` records its key with an empty value list, a piece with
`=` (split at the first `=`) appends its value to its key's list. -/
def specPieceStep (key : String) (acc : Option (List String)) (pv : String) :
    Option (List String) :=
  match split_once "=" pv with
  | none => if pv = key then some [] else acc
  | some kv =>
    if kv.1 = key then some (acc.getD [] ++ [kv.2]) else acc

/-- The value list the claim assigns to `key` in a raw query string. -/
def specQueryLookup (qs key : String) : Option (List String) :=
  ((splitChar '&' qs.toList).map String.mk).foldl (specPieceStep key) none

theorem lookupA_fold_step (key : String) (pieces : List String)
    (m : List (String × List String)) :
    lookupA
      (pieces.foldl
        (fun m pv =>
          match split_once "=" pv with
          | none => insertA m pv []
          | some kv => pushA m kv.1 kv.2)
        m)
      key
      = pieces.foldl (specPieceStep key) (lookupA m key) := by
  induction pieces generalizing m with
  | nil => rfl
  | cons pv rest ih =>
    simp only [List.foldl_cons]
    rcases hsplit : split_once "=" pv with _ | ⟨k1, v1⟩
    · simp only [specPieceStep, hsplit]
      rw [ih, lookupA_insertA]
    · simp only [specPieceStep, hsplit]
      rw [ih, lookupA_pushA]
      by_cases hk : k1 = key
      · subst hk
        simp
      · simp [hk]

/-! ## C7: query-string parsing -/

/-- C7: for every raw query string, the value list `query_all` computes for
a key is exactly the claim's description — split on `&`, split each piece at
the first `=`, a piece without `=` records its key with an empty list, a
piece with `=` appends its raw (never percent-decoded) value preserving
multiplicity and order; in particular `a=1&a=2&b=3` yields
`a -> ["1","2"]` and `b -> ["3"]`, a bare key `k` yields `k -> []`, and a
piece `a=b=c` is split at its first `=` only. -/
theorem query_all_matches_spec :
    (∀ qs key : String, query_all (some qs) key = specQueryLookup qs key) ∧
    query_all (some "a=1&a=2&b=3") "a" = some ["1", "2"] ∧
    query_all (some "a=1&a=2&b=3") "b" = some ["3"] ∧
    query_all (some "k") "k" = some [] ∧
    query_all (some "a=b=c") "a" = some ["b=c"] := by
  refine ⟨fun qs key => ?_, by decide, by decide, by decide, by decide⟩
  have h1 : query_all (some qs) key = lookupA (computeParams qs) key := rfl
  rw [h1]
  unfold computeParams specQueryLookup
  rw [lookupA_fold_step]
  rfl

/-! ## C10: bare keys through the single-value accessor -/

/-- C10: whenever the parameter map records a key with an empty value list
(a bare key), `query` returns `none`, exactly as it does for a key that is
not recorded at all, even though `query_all` distinguishes the two as
`some []` versus `none`. -/
theorem query_bare_key_indistinguishable
    (qs : Option String) (bareKey absentKey : String)
    (hbare : query_all qs bareKey = some [])
    (habsent : query_all qs absentKey = none) :
    query qs bareKey = none ∧ query qs absentKey = none := by
  unfold query
  rw [hbare, habsent]
  exact ⟨rfl, rfl⟩

/-- Witness for C10 at the query string `"k"`: key `k` is recorded bare,
key `x` is absent, and `query` returns `none` for both. -/
theorem query_bare_key_indistinguishable_witness :
    query (some "k") "k" = none ∧ query (some "k") "x" = none :=
  query_bare_key_indistinguishable (some "k") "k" "x" (by decide) (by decide)

/-! ## C9: thread-pool construction -/

/-- C9: `ThreadPool::new(size)` returns the configuration error exactly
when `size < 1`, and otherwise a pool holding exactly `size` workers. -/
theorem threadPool_new_spec (size : Nat) :
    (size < 1 → ThreadPool.new size = Except.error "size must be greater than 0") ∧
    (1 ≤ size → ∃ p : ThreadPool,
      ThreadPool.new size = Except.ok p ∧ p.workers.length = size) := by
  constructor
  · intro h
    unfold ThreadPool.new
    rw [if_pos h]
  · intro h
    refine ⟨{ workers := (List.range size).map Worker.new }, ?_, by simp⟩
    unfold ThreadPool.new
    rw [if_neg (by omega)]

/-- Witness for C9 at sizes `0` and `2`. -/
theorem threadPool_new_spec_witness :
    ThreadPool.new 0 = Except.error "size must be greater than 0" ∧
    ∃ p : ThreadPool, ThreadPool.new 2 = Except.ok p ∧ p.workers.length = 2 :=
  ⟨(threadPool_new_spec 0).1 (by decide), (threadPool_new_spec 2).2 (by decide)⟩

/-! ## C3: request-line validation -/

/-- C3: on a request line with a token that is not a recognized method, the
parser does not fail with a parse error as the claim states — the
`unwrap()` of `HttpMethod::name_of` at main.rs line 530 panics instead.
The remaining conjuncts evaluate the code on the claim's other cases: a
three-token line with a recognized method (case-insensitively) parses
successfully with method, request-target and version taken from tokens
1-3, and too few tokens or no lines at all are parse errors. -/
theorem parse_request_line_panics_on_unknown_method :
    parse_http_request ["FOO / HTTP/1.1"] (some "1.2.3.4:5") =
      ParseOutcome.panicked ∧
    parse_http_request ["get /a?b=1 HTTP/1.1"] (some "1.2.3.4:5") =
      ParseOutcome.ok
        { version := "HTTP/1.1"
          remote_addr := "1.2.3.4:5"
          method := HttpMethod.GET
          path := "/a"
          hash := none
          query_string := some "b=1"
          params := none
          headers := []
          body := none } ∧
    parse_http_request ["GET /"] (some "1.2.3.4:5") = ParseOutcome.failure ∧
    parse_http_request ["GET / HTTP/1.1 extra"] (some "1.2.3.4:5") =
      ParseOutcome.failure ∧
    parse_http_request [] (some "1.2.3.4:5") = ParseOutcome.failure := by
  refine ⟨by decide, by decide, by decide, by decide, by decide⟩

/-! ## C4: body extraction -/

theorem headerScan_snd (rest : List String) (hs : List (String × String))
    (i : Nat) (hne : ∀ l ∈ rest, l ≠ "") :
    (headerScan rest hs i).2 = i + rest.length := by
  induction rest generalizing hs i with
  | nil => rfl
  | cons l t ih =>
    have hl : l ≠ "" := hne l (List.mem_cons_self l t)
    have ht : ∀ x ∈ t, x ≠ "" := fun x hx => hne x (List.mem_cons_of_mem l hx)
    unfold headerScan
    rw [if_neg hl]
    rcases split_once ": " l with _ | kv
    · rw [ih hs (i + 1) ht]
      simp only [List.length_cons]
      omega
    · rw [ih (insertA hs kv.1 kv.2) (i + 1) ht]
      simp only [List.length_cons]
      omega

/-- C4: every successfully parsed request has an absent body.  The header
loop consumes every collected line (collection already stopped at the
first empty line), so the `i + 1 < lines.len()` guard at main.rs line 490
is never satisfied and the CRLF-rejoin branch is dead code.  The first
conjunct evaluates the parser on a connection whose stream does carry
lines after the header block (`"hello"`, `"world"` after the blank line):
the constructed request's body is `none`, not the rejoined remainder. -/
theorem parse_body_always_absent :
    parse_http_request ["GET /p HTTP/1.1", "Host: x", "", "hello", "world"]
      (some "1.2.3.4:5") =
      ParseOutcome.ok
        { version := "HTTP/1.1"
          remote_addr := "1.2.3.4:5"
          method := HttpMethod.GET
          path := "/p"
          hash := none
          query_string := none
          params := none
          headers := [("Host", "x")]
          body := none } ∧
    ∀ (streamLines : List String) (peer_addr : Option String) (r : HttpRequest),
      parse_http_request streamLines peer_addr = ParseOutcome.ok r →
      r.body = none := by
  refine ⟨by decide, fun streamLines peer_addr r hok => ?_⟩
  unfold parse_http_request at hok
  set lines := streamLines.takeWhile (fun l => l ≠ "") with hlines
  have hall : ∀ l ∈ lines, l ≠ "" := by
    intro l hl
    have := List.mem_takeWhile_imp hl
    simpa using this
  rcases hmatch : lines with _ | ⟨first, restl⟩
  · rw [hmatch] at hok
    exact absurd hok (by simp)
  · rw [hmatch] at hok
    simp only at hok
    split at hok
    case isTrue h3 =>
      have hscan : (headerScan (lines.drop 1) [] 1).2 = 1 + (lines.drop 1).length := by
        refine headerScan_snd _ _ _ ?_
        intro x hx
        exact hall x (List.mem_of_mem_drop hx)
      have hlen : (headerScan (lines.drop 1) [] 1).2 = lines.length := by
        rw [hscan, hmatch]
        simp only [List.drop_succ_cons, List.drop_zero, List.length_cons]
        omega
      rw [hmatch] at hlen
      rcases peer_addr with _ | addr
      · exact absurd hok (by simp)
      · simp only at hok
        split at hok
        · exact absurd hok (by simp)
        case h_2 m hm =>
          have hbody :
              (if (headerScan ((first :: restl).drop 1) [] 1).2 + 1 <
                  (first :: restl).length then
                some (joinSep "\r\n"
                  ((first :: restl).drop
                    ((headerScan ((first :: restl).drop 1) [] 1).2 + 1)))
              else none) = none := by
            rw [if_neg (by omega)]
          rw [hbody] at hok
          have := (ParseOutcome.ok.injEq _ _).mp hok
          rw [← this]
    case isFalse => exact absurd hok (by simp)

/-- Witness for C4's universal conjunct at the first conjunct's input. -/
theorem parse_body_always_absent_witness :
    ({ version := "HTTP/1.1"
       remote_addr := "1.2.3.4:5"
       method := HttpMethod.GET
       path := "/p"
       hash := none
       query_string := none
       params := none
       headers := [("Host", "x")]
       body := none } : HttpRequest).body = none :=
  parse_body_always_absent.2
    ["GET /p HTTP/1.1", "Host: x", "", "hello", "world"] (some "1.2.3.4:5") _
    parse_body_always_absent.1

/-! ## C2: chain abort -/

/-- A response only the terminal route handler produces, used to observe
whether the handler ran. -/
def handlerSentinel : HttpResponse :=
  { status_code := 200
    headers := none
    body := some "HANDLER"
    view := none
    file := none }

/-- A response a middleware sets before aborting. -/
def middlewareResponseA : HttpResponse :=
  { status_code := 201
    headers := none
    body := some "A"
    view := none
    file := none }

/-- A response the second middleware would set if it ran. -/
def middlewareResponseB : HttpResponse :=
  { status_code := 202
    headers := none
    body := some "B"
    view := none
    file := none }

/-- C2: after a middleware calls `abort()`, a subsequent `next()` call does
execute the terminal handler, contradicting the claim that no handler runs
once the chain is aborted: `MiddlewareChain::next` (main.rs lines 116-127)
falls through to `(self.handler)(ctx)` whenever its guard fails, including
when it fails because `is_abort()` is true.  First conjunct: a single
middleware that aborts and then calls `next` yields the handler's response,
not the `none` set at abort time.  Second conjunct: with two middlewares,
the first aborting before `next`, the second middleware is indeed skipped
(that part of the claim holds) — with an identity handler the response
stays the first middleware's.  Third conjunct: the same aborting chain
with a response-setting handler shows the handler overwrote the aborting
middleware's response. -/
theorem chain_abort_then_next_runs_handler :
    run_chain 9 (fun ctx => { ctx with response := some handlerSentinel })
      [[MwAct.abortChain, MwAct.callNext]] (mkRequest HttpMethod.GET "/") =
      some handlerSentinel ∧
    run_chain 9 (fun ctx => ctx)
      [[MwAct.setResponse (some middlewareResponseA), MwAct.abortChain,
        MwAct.callNext],
       [MwAct.setResponse (some middlewareResponseB), MwAct.callNext]]
      (mkRequest HttpMethod.GET "/") = some middlewareResponseA ∧
    run_chain 9 (fun ctx => { ctx with response := some handlerSentinel })
      [[MwAct.setResponse (some middlewareResponseA), MwAct.abortChain,
        MwAct.callNext],
       [MwAct.setResponse (some middlewareResponseB), MwAct.callNext]]
      (mkRequest HttpMethod.GET "/") = some handlerSentinel := by
  refine ⟨rfl, rfl, rfl⟩

/-! ## C8: content-type resolution -/

/-- C8 counterexample: the code performs no lower-casing of the extension.
For the path `"a.JSON"` the claim resolves the lower-cased extension
`"json"` in the table to `application/json`, but `get_content_type`
(mime_type.rs lines 51-58) looks up `"JSON"` as-is, misses, and returns
`application/octet-stream`. -/
theorem get_content_type_no_lowercasing :
    get_content_type "a.JSON" = "application/octet-stream" ∧
    lookupA CONTENT_TYPE_MAP "json" = some "application/json" := by
  refine ⟨by decide, by decide⟩

theorem splitChar_cons (c ch : Char) (rest : List Char) :
    splitChar c (ch :: rest) =
      match splitChar c rest with
      | [] => [[]]
      | h :: t => if ch = c then [] :: h :: t else (ch :: h) :: t := rfl

theorem splitChar_ne_nil (c : Char) (s : List Char) : splitChar c s ≠ [] := by
  cases s with
  | nil => simp [splitChar]
  | cons ch rest =>
    rw [splitChar_cons]
    rcases h : splitChar c rest with _ | ⟨hd, tl⟩
    · simp
    · by_cases hc : ch = c <;> simp [hc]

theorem splitChar_append (c : Char) (xs ys : List Char) :
    splitChar c (xs ++ c :: ys) = splitChar c xs ++ splitChar c ys := by
  induction xs with
  | nil =>
    simp only [List.nil_append]
    rw [splitChar_cons]
    rcases h : splitChar c ys with _ | ⟨hd, tl⟩
    · exact absurd h (splitChar_ne_nil c ys)
    · simp [splitChar]
  | cons x xs ih =>
    simp only [List.cons_append]
    rw [splitChar_cons, splitChar_cons, ih]
    rcases hxs : splitChar c xs with _ | ⟨hd, tl⟩
    · exact absurd hxs (splitChar_ne_nil c xs)
    · by_cases hx : x = c <;> simp [hx]

theorem splitChar_of_not_mem (c : Char) (s : List Char) (h : c ∉ s) :
    splitChar c s = [s] := by
  induction s with
  | nil => rfl
  | cons ch rest ih =>
    have hch : ch ≠ c := fun he => h (he ▸ List.mem_cons_self ch rest)
    have hrest : c ∉ rest := fun hm => h (List.mem_cons_of_mem ch hm)
    unfold splitChar
    rw [ih hrest]
    simp [hch]

/-- C8 as amended: content-type resolution takes the piece after the last
`.` as-is — no lower-casing — looks it up in the fixed extension-to-MIME
table, and resolves any unmatched piece (including the whole path when no
`.` occurs) to `application/octet-stream`; a file ending in `.json`
resolves to `application/json`. -/
theorem get_content_type_spec :
    (∀ pre ext : List Char, ('.' : Char) ∉ ext →
      get_content_type (String.mk (pre ++ '.' :: ext)) =
        ((lookupA CONTENT_TYPE_MAP (String.mk ext)).getD
          "application/octet-stream")) ∧
    (∀ s : List Char, ('.' : Char) ∉ s →
      get_content_type (String.mk s) =
        ((lookupA CONTENT_TYPE_MAP (String.mk s)).getD
          "application/octet-stream")) ∧
    get_content_type "app.json" = "application/json" ∧
    get_content_type "a.weird" = "application/octet-stream" := by
  refine ⟨fun pre ext hext => ?_, fun s hs => ?_, by decide, by decide⟩
  · unfold get_content_type
    have hdata : (String.mk (pre ++ '.' :: ext)).toList = pre ++ '.' :: ext := rfl
    rw [hdata, splitChar_append, splitChar_of_not_mem _ _ hext]
    have hlast : (splitChar '.' pre ++ [ext]).getLast? = some ext := by
      rw [List.getLast?_append_cons]
      rfl
    rw [hlast]
    show (match lookupA CONTENT_TYPE_MAP (String.mk ext) with
      | some content_type => content_type
      | none => "application/octet-stream") = _
    rcases h2 : lookupA CONTENT_TYPE_MAP (String.mk ext) with _ | ct <;> simp [h2]
  · unfold get_content_type
    have hdata : (String.mk s).toList = s := rfl
    rw [hdata, splitChar_of_not_mem _ _ hs]
    show (match lookupA CONTENT_TYPE_MAP (String.mk s) with
      | some content_type => content_type
      | none => "application/octet-stream") = _
    rcases h2 : lookupA CONTENT_TYPE_MAP (String.mk s) with _ | ct <;> simp [h2]

/-- Witness for C8's amended theorem: `"app" ++ "." ++ "json"` resolves
through the table and `"Makefile"` (no dot) falls back to the default. -/
theorem get_content_type_spec_witness :
    get_content_type (String.mk ("app".toList ++ '.' :: "json".toList)) =
      ((lookupA CONTENT_TYPE_MAP (String.mk "json".toList)).getD
        "application/octet-stream") ∧
    get_content_type (String.mk "Makefile".toList) =
      ((lookupA CONTENT_TYPE_MAP (String.mk "Makefile".toList)).getD
        "application/octet-stream") :=
  ⟨get_content_type_spec.1 "app".toList "json".toList (by decide),
   get_content_type_spec.2.1 "Makefile".toList (by decide)⟩

/-! ## C1: route matching -/

theorem find?_first_characterization {α : Type} (p : α → Bool) (l : List α)
    (a : α) :
    l.find? p = some a ↔
      ∃ i, l.get? i = some a ∧ p a = true ∧
        ∀ j, j < i → ∀ b, l.get? j = some b → p b = false := by
  induction l with
  | nil => simp [List.find?]
  | cons x xs ih =>
    cases hp : p x with
    | true =>
      rw [List.find?_cons_of_pos xs hp]
      constructor
      · intro hx
        have hax : x = a := by
          injection hx
        refine ⟨0, by rw [← hax]; rfl, by rw [← hax]; exact hp, ?_⟩
        intro j hj
        omega
      · rintro ⟨i, hget, hpa, hmin⟩
        cases i with
        | zero =>
          have : some x = some a := hget
          exact this
        | succ k =>
          have hfalse := hmin 0 (Nat.succ_pos k) x rfl
          rw [hp] at hfalse
          exact absurd hfalse (by simp)
    | false =>
      rw [List.find?_cons_of_neg xs (by rw [hp]; simp)]
      rw [ih]
      constructor
      · rintro ⟨i, hget, hpa, hmin⟩
        refine ⟨i + 1, hget, hpa, ?_⟩
        intro j hj b hb
        cases j with
        | zero =>
          have : some x = some b := hb
          have hxb : x = b := by injection this
          rw [← hxb]
          exact hp
        | succ k => exact hmin k (by omega) b hb
      · rintro ⟨i, hget, hpa, hmin⟩
        cases i with
        | zero =>
          have : some x = some a := hget
          have hxa : x = a := by injection this
          rw [← hxa] at hpa
          rw [hp] at hpa
          exact absurd hpa (by simp)
        | succ k =>
          refine ⟨k, hget, hpa, ?_⟩
          intro j hj b hb
          exact hmin (j + 1) (by omega) b hb

/-- C1 counterexample: under mapping `(*, "/static/**")`, the request path
`"/staticx"` DOES match, because `is_match` (main.rs lines 212-223)
compares against the prefix `"/static"` (`"/static/**".replace("/**", "")`)
and `"/staticx"` starts with `"/static"` — the claim asserts it does not
match. -/
theorem staticx_matches_static_wildcard :
    is_match (mkRequest HttpMethod.GET "/staticx")
      { method := none, path := "/static/**", handler := 0 } = true := by
  decide

/-- C1 as amended: the router returns the first registered mapping, in
registration order, whose method filter is absent or equal to the request
method, and whose path pattern equals the request path exactly, or ends in
`"/**"` with the request path starting with the pattern with every
occurrence of `"/**"` removed; under mapping `(*, "/static/**")` both
`"/static/img/a.png"` and `"/staticx"` match (the prefix compared against
is `"/static"`). -/
theorem router_first_match :
    (∀ (request : HttpRequest) (mapping : RequestMapping),
      is_match request mapping = true ↔
        (mapping.method = none ∨ mapping.method = some request.method) ∧
        (mapping.path = request.path ∨
          ("/**".toList <:+ mapping.path.toList ∧
            (replaceAll mapping.path "/**" "").toList <+:
              request.path.toList))) ∧
    (∀ (handlers : List RequestMapping) (request : HttpRequest)
        (m : RequestMapping),
      dispatch_find handlers request = some m ↔
        ∃ i, handlers.get? i = some m ∧ is_match request m = true ∧
          ∀ j, j < i → ∀ m2, handlers.get? j = some m2 →
            is_match request m2 = false) ∧
    is_match (mkRequest HttpMethod.GET "/static/img/a.png")
      { method := none, path := "/static/**", handler := 0 } = true ∧
    is_match (mkRequest HttpMethod.GET "/staticx")
      { method := none, path := "/static/**", handler := 0 } = true := by
  refine ⟨fun request mapping => ?_, ?_, by decide, by decide⟩
  · rcases mapping with ⟨mm, mpath, mh⟩
    rcases mm with _ | m
    · by_cases h2 : mpath = request.path
      · simp [is_match, h2]
      · by_cases h3s : "/**".toList <:+ mpath.toList
        · by_cases h3p : (replaceAll mpath "/**" "").toList <+:
              request.path.toList
          · simp [is_match, h2, h3s, h3p]
          · simp [is_match, h2, h3s, h3p]
        · simp [is_match, h2, h3s]
    · by_cases hm : m = request.method
      · subst hm
        by_cases h2 : mpath = request.path
        · simp [is_match, h2]
        · by_cases h3s : "/**".toList <:+ mpath.toList
          · by_cases h3p : (replaceAll mpath "/**" "").toList <+:
                request.path.toList
            · simp [is_match, h2, h3s, h3p]
            · simp [is_match, h2, h3s, h3p]
          · simp [is_match, h2, h3s]
      · simp [is_match, hm]
  · intro handlers request m
    exact find?_first_characterization (fun mapping => is_match request mapping)
      handlers m

/-! ## C5: open-failure fallback in the response writer -/

/-- C5: when the content source is a view or file path whose open fails,
the writer emits exactly the amended 404 status line first, then the
headers with any previously-set Content-Type removed, then the blank line,
and no body; in particular no chunk of the original status line precedes
the failure. -/
theorem response_writer_open_failure
    (fs : String → Option String) (view_root : Option String)
    (r : HttpResponse) :
    (∀ v, r.body = none → r.view = some v →
      fs (resolveView view_root v) = none →
      handler_response fs view_root r =
        "HTTP/1.1 404 Not Found\r\n"
          :: headerLines (r.headers.map (fun hs => removeA hs "Content-Type"))
          ++ ["\r\n"]) ∧
    (∀ f, r.body = none → r.view = none → r.file = some f → fs f = none →
      handler_response fs view_root r =
        "HTTP/1.1 404 Not Found\r\n"
          :: headerLines (r.headers.map (fun hs => removeA hs "Content-Type"))
          ++ ["\r\n"]) := by
  have h404 : ("HTTP/1.1 " ++ toString (404 : Nat) ++ " "
      ++ statusMessage 404 ++ "\r\n") = "HTTP/1.1 404 Not Found\r\n" := by
    decide
  rcases r with ⟨code, hdrs, rbody, rview, rfile⟩
  constructor
  · intro v hb hv hfs
    simp only at hb hv
    subst hb
    subst hv
    unfold handler_response
    simp only [hfs]
    unfold write_response_line_header
    rw [h404]
  · intro f hb hv hf hfs
    simp only at hb hv hf
    subst hb
    subst hv
    subst hf
    unfold handler_response
    simp only [hfs]
    unfold write_response_line_header
    rw [h404]

/-- Witness for C5: a view whose open fails and a file whose open fails
each produce only the 404 status line, the headers minus Content-Type and
the blank line. -/
theorem response_writer_open_failure_witness :
    handler_response (fun _ => none) none
      { status_code := 200
        headers := some [("Content-Type", "text/html"), ("X", "y")]
        body := none
        view := some "v.html"
        file := none } =
      ["HTTP/1.1 404 Not Found\r\n", "X: y\r\n", "\r\n"] ∧
    handler_response (fun _ => none) none
      { status_code := 200
        headers := some [("Content-Type", "text/html")]
        body := none
        view := none
        file := some "f.png" } =
      ["HTTP/1.1 404 Not Found\r\n", "\r\n"] :=
  ⟨((response_writer_open_failure (fun _ => none) none
      { status_code := 200
        headers := some [("Content-Type", "text/html"), ("X", "y")]
        body := none
        view := some "v.html"
        file := none }).1 "v.html" rfl rfl rfl).trans (by decide),
   ((response_writer_open_failure (fun _ => none) none
      { status_code := 200
        headers := some [("Content-Type", "text/html")]
        body := none
        view := none
        file := some "f.png" }).2 "f.png" rfl rfl rfl rfl).trans (by decide)⟩

/-! ## C6: request-target decomposition -/

theorem findChar_eq_none (c : Char) (l : List Char) (h : c ∉ l) :
    findChar c l = none := by
  induction l with
  | nil => rfl
  | cons x xs ih =>
    have hx : x ≠ c := fun he => h (he ▸ List.mem_cons_self x xs)
    have hxs : c ∉ xs := fun hm => h (List.mem_cons_of_mem x hm)
    unfold findChar
    rw [if_neg hx, ih hxs]
    rfl

theorem findChar_append_first (c : Char) (l1 l2 : List Char) (h : c ∉ l1) :
    findChar c (l1 ++ c :: l2) = some l1.length := by
  induction l1 with
  | nil =>
    simp only [List.nil_append]
    unfold findChar
    rw [if_pos rfl]
    rfl
  | cons x xs ih =>
    have hx : x ≠ c := fun he => h (he ▸ List.mem_cons_self x xs)
    have hxs : c ∉ xs := fun hm => h (List.mem_cons_of_mem x hm)
    simp only [List.cons_append]
    unfold findChar
    rw [if_neg hx, ih hxs]
    rfl

theorem drop_length_succ_append (c : Char) (l1 l2 : List Char) :
    (l1 ++ c :: l2).drop (l1.length + 1) = l2 := by
  have h : l1 ++ c :: l2 = (l1 ++ [c]) ++ l2 := by simp
  have hlen : (l1 ++ [c]).length = l1.length + 1 := by simp
  rw [h, ← hlen, List.drop_left]

theorem take_length_append (c : Char) (l1 l2 : List Char) :
    (l1 ++ c :: l2).take l1.length = l1 := by
  have h : l1 ++ c :: l2 = l1 ++ (c :: l2) := rfl
  rw [h, List.take_left]

/-- C6: the request-target decomposition follows the claimed precedence.
Conjunct 1: no `#` and no `?` — the whole target is the path.  Conjunct 2:
no `#` anywhere and a first `?` — path before it, query string after, no
fragment.  Conjunct 3: a first `#` with no `?` after it — path before the
`#`, the whole remainder is the fragment, no query string.  Conjunct 4: a
first `#` and a first `?` after it — path before `#`, fragment between,
query string after. -/
theorem parse_target_decomposition :
    (∀ u : List Char, ('#' : Char) ∉ u → ('?' : Char) ∉ u →
      parseTarget u = (u, none, none)) ∧
    (∀ p q : List Char, ('#' : Char) ∉ p → ('#' : Char) ∉ q →
      ('?' : Char) ∉ p →
      parseTarget (p ++ '?' :: q) = (p, none, some q)) ∧
    (∀ p f : List Char, ('#' : Char) ∉ p → ('?' : Char) ∉ f →
      parseTarget (p ++ '#' :: f) = (p, some f, none)) ∧
    (∀ p f q : List Char, ('#' : Char) ∉ p → ('?' : Char) ∉ f →
      parseTarget (p ++ '#' :: (f ++ '?' :: q)) = (p, some f, some q)) := by
  refine ⟨fun u h1 h2 => ?_, fun p q h1 h2 h3 => ?_, fun p f h1 h2 => ?_,
    fun p f q h1 h2 => ?_⟩
  · simp only [parseTarget, findChar_eq_none '#' u h1,
      findChar_eq_none '?' u h2]
  · have hhash : ('#' : Char) ∉ p ++ '?' :: q := by
      intro hm
      rcases List.mem_append.mp hm with hm | hm
      · exact h1 hm
      · rcases List.mem_cons.mp hm with hm | hm
        · exact absurd hm.symm (by decide)
        · exact h2 hm
    simp only [parseTarget, findChar_eq_none '#' _ hhash,
      findChar_append_first '?' p q h3, take_length_append,
      drop_length_succ_append]
  · simp only [parseTarget, findChar_append_first '#' p f h1,
      take_length_append, drop_length_succ_append,
      findChar_eq_none '?' f h2]
  · simp only [parseTarget, findChar_append_first '#' p (f ++ '?' :: q) h1,
      take_length_append, drop_length_succ_append,
      findChar_append_first '?' f q h2]

/-- Witness for C6 at the targets `/p`, `/p?q=1`, `/p#frag` and
`/p#frag?q=1`. -/
theorem parse_target_decomposition_witness :
    parseTarget "/p".toList = ("/p".toList, none, none) ∧
    parseTarget "/p?q=1".toList = ("/p".toList, none, some "q=1".toList) ∧
    parseTarget "/p#frag".toList = ("/p".toList, some "frag".toList, none) ∧
    parseTarget "/p#frag?q=1".toList =
      ("/p".toList, some "frag".toList, some "q=1".toList) :=
  ⟨parse_target_decomposition.1 "/p".toList (by decide) (by decide),
   parse_target_decomposition.2.1 "/p".toList "q=1".toList (by decide)
     (by decide) (by decide),
   parse_target_decomposition.2.2.1 "/p".toList "frag".toList (by decide)
     (by decide),
   parse_target_decomposition.2.2.2 "/p".toList "frag".toList "q=1".toList
     (by decide) (by decide)⟩

end RustHttp
